import Mathlib

/-!
# Verification of `SC.ObjectProxy` (src/lib/core.js)

A shallow embedding of the ObjectProxy from `src/lib/core.js`.  JavaScript
values are modelled by `Value`; objects and collections (SproutCore
enumerables) live in an explicit `Heap` and are denoted by reference
identifiers, so that JavaScript reference semantics (aliasing, `===` on
objects, in-place mutation through a reference) are captured faithfully.

The proxy instance state is `ProxyState`.  The class-level set
`_proxiedProperties: new SC.Set()` in the source is evaluated once at class
definition time and is therefore shared by reference across all instances;
it is modelled as a separate `registry` value passed alongside each
instance rather than as a field of `ProxyState`.

The surrounding observable framework (SC.get / SC.set, computed-property
caching, notifyPropertyChange, observer dispatch) is not part of this
repository's source; the definitions for those pieces are modelled from
the spec and are marked as such in their doc comments.
-/

/-- JavaScript values as used by the proxy.  Objects and enumerable
collections are heap references, so `==` on them is reference identity,
matching JavaScript `===`. -/
inductive Value where
  | undef
  | null
  | bool (b : Bool)
  | num (n : Int)
  | str (s : String)
  | objRef (id : Nat)
  | collRef (id : Nat)
deriving DecidableEq, Repr

/-- A plain (non-enumerable) object in the heap: its property map, and
whether it exposes a callable `destroy` member. -/
structure ObjRecord where
  props : List (String × Value) := []
  hasDestroy : Bool := false
deriving DecidableEq, Repr

/-- An enumerable collection in the heap (ordered elements). -/
structure CollRecord where
  elems : List Value := []
deriving DecidableEq, Repr

/-- The heap of objects and collections. -/
structure Heap where
  objs : List (Nat × ObjRecord) := []
  colls : List (Nat × CollRecord) := []
deriving DecidableEq, Repr

/-- Per-instance state of an `SC.ObjectProxy`.  `accessors` holds the
computed accessors installed by `unknownProperty` (key and cached value;
`none` = cache invalid); `notifications` logs the property-change
notifications emitted for this instance.  Attribute defaults are the
source's: `content: null`, `allowsMultipleContent: false`,
`isEditable: true`. -/
structure ProxyState where
  content : Value := Value.null
  allowsMultipleContent : Bool := false
  isEditable : Bool := true
  accessors : List (String × Option Value) := []
  notifications : List String := []
deriving DecidableEq, Repr

/-- The error thrown by the forwarded accessor's write path:
`SC.Error.create("%@.%@ is not editable".fmt(this, key))` identifies the
proxy (receiver) and the offending key. -/
structure SCError where
  proxy : ProxyState
  key : String
deriving DecidableEq, Repr

/-- JavaScript truthiness: `null`, `undefined`, `false`, `0` and the empty
string are falsy; objects and collections are always truthy. -/
def truthy : Value → Bool
  | Value.undef => false
  | Value.null => false
  | Value.bool b => b
  | Value.num n => n != 0
  | Value.str s => s ≠ ""
  | Value.objRef _ => true
  | Value.collRef _ => true

/-- `content === null || content === undefined` (strict equality). -/
def isNullOrUndef : Value → Bool
  | Value.null => true
  | Value.undef => true
  | _ => false

/-- `SC.isEnumerable(content)`: a value is a collection iff it reports
`isEnumerable === true`; in the model exactly the collection references do. -/
def scIsEnumerable : Value → Bool
  | Value.collRef _ => true
  | _ => false

/-- First-match association lookup (the model's rendering of JavaScript
property / heap access). -/
def assocFind {α β : Type} [DecidableEq α] (key : α) : List (α × β) → Option β
  | [] => none
  | (k, w) :: rest => if k = key then some w else assocFind key rest

/-- Heap lookup for an object record. -/
def Heap.objRec (h : Heap) (id : Nat) : Option ObjRecord :=
  assocFind id h.objs

/-- Heap lookup for a collection record. -/
def Heap.collRec (h : Heap) (id : Nat) : Option CollRecord :=
  assocFind id h.colls

/-- The ordered elements of a collection value (empty for non-collections). -/
def collElems (h : Heap) : Value → List Value
  | Value.collRef id =>
    match h.collRec id with
    | some r => r.elems
    | none => []
  | _ => []

/-- `get(content, 'length')` on a collection. -/
def collLength (h : Heap) (v : Value) : Nat :=
  (collElems h v).length

/-- `get(content, 'firstObject')`: the first element of a collection,
`undefined` when there is none. -/
def firstObject (h : Heap) (v : Value) : Value :=
  (collElems h v).headD Value.undef

/-- `get(target, key)` on the proxied target: property lookup on a plain
object; `undefined` on primitives and (for ordinary keys) on collections. -/
def getProp (h : Heap) : Value → String → Value
  | Value.objRef id, key =>
    match h.objRec id with
    | some r =>
      match assocFind key r.props with
      | some v => v
      | none => Value.undef
    | none => Value.undef
  | _, _ => Value.undef

/-- Update (or add) one key in a property list; the first matching entry is
replaced, mirroring lookup-first semantics. -/
def setPropList (props : List (String × Value)) (key : String) (v : Value) :
    List (String × Value) :=
  match props with
  | [] => [(key, v)]
  | (k, w) :: rest =>
    if k = key then (k, v) :: rest else (k, w) :: setPropList rest key v

/-- Update the property `key` of object `id` in the heap's object list
(first matching record). -/
def updateObjProps (objs : List (Nat × ObjRecord)) (id : Nat) (key : String)
    (v : Value) : List (Nat × ObjRecord) :=
  match objs with
  | [] => []
  | (i, r) :: rest =>
    if i = id then (i, { r with props := setPropList r.props key v }) :: rest
    else (i, r) :: updateObjProps rest id key v

/-- `set(target, key, value)`: in-place mutation of the referenced object.
Setting a property on a primitive is a silent no-op (non-strict JS), and
the source never sets ordinary keys directly on a collection (it uses
`setEach`), so those cases leave the heap unchanged. -/
def setProp (h : Heap) (target : Value) (key : String) (v : Value) : Heap :=
  match target with
  | Value.objRef id => { h with objs := updateObjProps h.objs id key v }
  | _ => h

/-- `content.getEach(key)`: gather `key` from every element in order, one
value per element. -/
def getEach (h : Heap) (target : Value) (key : String) : List Value :=
  (collElems h target).map (fun e => getProp h e key)

/-- `content.setEach(key, value)`: set `key` on every element. -/
def setEach (h : Heap) (target : Value) (key : String) (v : Value) : Heap :=
  (collElems h target).foldl (fun h' e => setProp h' e key v) h

/-- Helper for `uniq`: drop values already seen, keeping first occurrences
in order. -/
def uniqFrom (seen : List Value) : List Value → List Value
  | [] => []
  | x :: xs =>
    if x ∈ seen then uniqFrom seen xs else x :: uniqFrom (x :: seen) xs

/-- `value.uniq()`: duplicates removed, first occurrences kept in order;
comparison is JavaScript `===` (reference identity on objects and
collections, value equality on primitives), which is `Value` equality in
this model. -/
def uniq (xs : List Value) : List Value :=
  uniqFrom [] xs

/-- A collection id unused by the heap, for allocating the array that
`getEach` returns. -/
def freshCollId (h : Heap) : Nat :=
  (h.colls.map Prod.fst).foldl max 0 + 1

/-- Allocate a fresh collection holding `elems`; returns the extended heap
and the reference to the new collection. -/
def allocColl (h : Heap) (elems : List Value) : Heap × Value :=
  let id := freshCollId h
  ({ h with colls := (id, { elems := elems }) :: h.colls }, Value.collRef id)

/-- `observableContent` (src/lib/core.js lines 116-136): resolve the single
logical target from `content` and `allowsMultipleContent`. -/
def observableContent (h : Heap) (p : ProxyState) : Value :=
  let content := p.content
  if truthy content && scIsEnumerable content then
    let len := collLength h content
    let allowsMultiple := p.allowsMultipleContent
    let content1 :=
      if len = 1 then firstObject h content
      else if len = 0 || !allowsMultiple then Value.null
      else content
    if truthy content1 && !allowsMultiple && scIsEnumerable content1 then
      Value.null
    else content1
  else content

/-- `hasContent` (src/lib/core.js lines 92-94): `!SC.none(observableContent)`. -/
def hasContent (h : Heap) (p : ProxyState) : Bool :=
  !(isNullOrUndef (observableContent h p))

/-- The compute function the proxy installs for a forwarded key
(src/lib/core.js lines 171-199): reads when `value` is `undefined`,
writes otherwise.  The read fan-out allocates the array `getEach`
returned. -/
def forwardedCompute (p : ProxyState) (h : Heap) (key : String)
    (value : Value) : Except SCError (Value × Heap) :=
  let content := observableContent h p
  if isNullOrUndef content then Except.ok (Value.undef, h)
  else if value = Value.undef then
    if scIsEnumerable content then
      let vals := getEach h content key
      if vals.length = 0 then Except.ok (Value.undef, h)
      else if (uniq vals).length = 1 then Except.ok (vals.headD Value.undef, h)
      else
        let alloc := allocColl h vals
        Except.ok (alloc.2, alloc.1)
    else Except.ok (getProp h content key, h)
  else
    if p.isEditable = false then Except.error { proxy := p, key := key }
    else if scIsEnumerable content then Except.ok (value, setEach h content key value)
    else Except.ok (value, setProp h content key value)

/-- Overwrite the cached value of the accessor installed for `key`. -/
def setCache (p : ProxyState) (key : String) (c : Option Value) : ProxyState :=
  { p with
    accessors := p.accessors.map (fun kv => if kv.1 = key then (kv.1, c) else kv) }

/-- Invalidate (mark dirty) the cached value of the accessor for `key`. -/
def invalidateCache (accs : List (String × Option Value)) (key : String) :
    List (String × Option Value) :=
  accs.map (fun kv => if kv.1 = key then (kv.1, none) else kv)

/-- Modelled from the spec: the observable framework's `get` of an
installed cacheable computed property (the framework itself is not in
src/).  Returns the cached value when valid; otherwise invokes the compute
function and caches its result.  The compute function's read branch never
throws, so the error fallback is unreachable. -/
def computedGet (p : ProxyState) (h : Heap) (key : String) :
    Value × ProxyState × Heap :=
  match assocFind key p.accessors with
  | some (some c) => (c, p, h)
  | _ =>
    match forwardedCompute p h key Value.undef with
    | Except.ok (r, h') => (r, setCache p key (some r), h')
    | Except.error _ => (Value.undef, p, h)

/-- Modelled from the spec: the observable framework's `set` of an
installed cacheable computed property (the framework itself is not in
src/).  Invokes the compute function; on success records the written value
`v` for read-back consistency and returns `v` (spec section 4.2: "value
still recorded as `v`", "Return the written value `v`"); a thrown error
propagates and leaves all state unchanged. -/
def computedSet (p : ProxyState) (h : Heap) (key : String) (v : Value) :
    Except SCError (Value × ProxyState × Heap) :=
  match forwardedCompute p h key v with
  | Except.error e => Except.error e
  | Except.ok (_, h') => Except.ok (v, setCache p key (some v), h')

/-- Modelled from the spec: `notifyPropertyChange(owner, key)` of the
observable framework (not in src/) invalidates the key's cached value and
emits a change notification for that key. -/
def notifyPropertyChange (p : ProxyState) (key : String) : ProxyState :=
  { p with
    accessors := invalidateCache p.accessors key,
    notifications := p.notifications ++ [key] }

/-- `contentDidChange` (src/lib/core.js lines 205-209): walk the
`_proxiedProperties` registry and call `notifyPropertyChange` for each key. -/
def contentDidChange (p : ProxyState) (registry : List String) : ProxyState :=
  registry.foldl (fun p' key => notifyPropertyChange p' key) p

/-- Modelled from the spec: setting the `content` attribute through the
observable framework stores the value and synchronously runs the
`.observes('content')` observer, i.e. `contentDidChange`. -/
def setContent (p : ProxyState) (registry : List String) (v : Value) :
    ProxyState :=
  contentDidChange { p with content := v } registry

/-- `SC.Set.add`: add the key if not already present (insertion order kept). -/
def scSetAdd (s : List String) (k : String) : List String :=
  if k ∈ s then s else s ++ [k]

/-- `unknownProperty` (src/lib/core.js lines 169-201): record the key in
the shared `_proxiedProperties` registry, install the computed accessor for
it on this instance (cache initially empty), then `return get(this, key)`.
The `value` argument is accepted but not used by the source (the final
statement is a `get` even on the write path). -/
def unknownProperty (p : ProxyState) (h : Heap) (registry : List String)
    (key : String) (_value : Value) :
    Value × ProxyState × Heap × List String :=
  let registry' := scSetAdd registry key
  let p' := { p with accessors := p.accessors ++ [(key, none)] }
  let r := computedGet p' h key
  (r.1, r.2.1, r.2.2, registry')

/-- Modelled from the spec: the framework's property read routing.  A key
with an installed accessor is read through it directly (re-access "must
not reinstall"); a genuinely unknown key goes to `unknownProperty`. -/
def getKey (p : ProxyState) (h : Heap) (registry : List String)
    (key : String) : Value × ProxyState × Heap × List String :=
  match assocFind key p.accessors with
  | some _ =>
    let r := computedGet p h key
    (r.1, r.2.1, r.2.2, registry)
  | none => unknownProperty p h registry key Value.undef

/-- Number of accessor entries installed for `key`. -/
def countKey (accs : List (String × Option Value)) (key : String) : Nat :=
  (accs.filter (fun kv => decide (kv.1 = key))).length

/-- `SC.typeOf(content.destroy) === 'function'`: only plain objects can
expose a callable `destroy` member in the model. -/
def hasDestroyFn (h : Heap) : Value → Bool
  | Value.objRef id =>
    match h.objRec id with
    | some r => r.hasDestroy
    | none => false
  | _ => false

/-- The object id a truthy destroyable content refers to (0 otherwise;
only used after `hasDestroyFn` holds). -/
def destroyTargetId : Value → Nat
  | Value.objRef id => id
  | _ => 0

/-- `destroy` (src/lib/core.js lines 150-157): invoke the observable
content's `destroy` when it is truthy and exposes one (the invocation is
recorded in `log`), then `set(this, 'content', null)` — which runs the
content observer — and return the receiver (modelled as the updated proxy
state). -/
def destroy (p : ProxyState) (h : Heap) (registry : List String)
    (log : List Nat) : ProxyState × List Nat :=
  let content := observableContent h p
  let log' :=
    if truthy content && hasDestroyFn h content then
      log ++ [destroyTargetId content]
    else log
  (setContent p registry Value.null, log')

/-! ## Basic lemmas -/

theorem truthy_of_enum {v : Value} (h : scIsEnumerable v = true) :
    truthy v = true := by
  cases v <;> simp_all [scIsEnumerable, truthy]

theorem notNullUndef_of_enum {v : Value} (h : scIsEnumerable v = true) :
    isNullOrUndef v = false := by
  cases v <;> simp_all [scIsEnumerable, isNullOrUndef]

theorem not_enum_of_falsy {v : Value} (h : truthy v = false) :
    scIsEnumerable v = false := by
  cases v <;> simp_all [scIsEnumerable, truthy]

theorem notNullUndef_iff {v : Value} :
    isNullOrUndef v = false ↔ (v ≠ Value.null ∧ v ≠ Value.undef) := by
  cases v <;> simp [isNullOrUndef]

theorem observableContent_of_null_content {h : Heap} {p : ProxyState}
    (hc : p.content = Value.null) : observableContent h p = Value.null := by
  simp [observableContent, hc, truthy]

theorem assocFind_cons_self {α β : Type} [DecidableEq α] (k : α) (w : β)
    (l : List (α × β)) : assocFind k ((k, w) :: l) = some w := by
  simp [assocFind]

theorem assocFind_cons_ne {α β : Type} [DecidableEq α] {a k : α} (hne : k ≠ a)
    (w : β) (l : List (α × β)) : assocFind a ((k, w) :: l) = assocFind a l := by
  simp [assocFind, hne]

theorem lookup_setPropList_self (props : List (String × Value)) (key : String)
    (v : Value) : assocFind key (setPropList props key v) = some v := by
  induction props with
  | nil => simp [setPropList, assocFind]
  | cons kv rest ih =>
    obtain ⟨k, w⟩ := kv
    by_cases hk : k = key
    · subst hk; simp [setPropList, assocFind]
    · simp [setPropList, hk, assocFind, ih]

theorem lookup_setPropList_ne (props : List (String × Value)) (key j : String)
    (v : Value) (hj : j ≠ key) :
    assocFind j (setPropList props key v) = assocFind j props := by
  induction props with
  | nil => simp [setPropList, assocFind, Ne.symm hj]
  | cons kv rest ih =>
    obtain ⟨k, w⟩ := kv
    by_cases hk : k = key
    · subst hk; simp [setPropList, assocFind, Ne.symm hj]
    · by_cases hjk : k = j
      · subst hjk; simp [setPropList, hk, assocFind]
      · simp [setPropList, hk, assocFind, hjk, ih]

theorem lookup_updateObjProps_self (objs : List (Nat × ObjRecord)) (i : Nat)
    (key : String) (v : Value) (r : ObjRecord)
    (hr : assocFind i objs = some r) :
    assocFind i (updateObjProps objs i key v) =
      some { r with props := setPropList r.props key v } := by
  induction objs with
  | nil => simp [assocFind] at hr
  | cons kv rest ih =>
    obtain ⟨k, w⟩ := kv
    by_cases hk : k = i
    · subst hk
      simp [assocFind] at hr
      subst hr
      simp [updateObjProps, assocFind]
    · simp [assocFind, hk] at hr
      simp [updateObjProps, hk, assocFind, ih hr]

theorem lookup_updateObjProps_ne (objs : List (Nat × ObjRecord)) (i oid : Nat)
    (key : String) (v : Value) (hne : oid ≠ i) :
    assocFind oid (updateObjProps objs i key v) = assocFind oid objs := by
  induction objs with
  | nil => simp [updateObjProps]
  | cons kv rest ih =>
    obtain ⟨k, w⟩ := kv
    by_cases hk : k = i
    · subst hk; simp [updateObjProps, assocFind, Ne.symm hne, ih]
    · by_cases hok : k = oid
      · subst hok; simp [updateObjProps, hk, assocFind]
      · simp [updateObjProps, hk, assocFind, hok, ih]

theorem lookup_setCacheMap_self (accs : List (String × Option Value))
    (key : String) (c : Option Value)
    (h : (assocFind key accs).isSome = true) :
    assocFind key (accs.map (fun kv => if kv.1 = key then (kv.1, c) else kv)) =
      some c := by
  induction accs with
  | nil => simp [assocFind] at h
  | cons kv rest ih =>
    obtain ⟨k, w⟩ := kv
    rw [List.map_cons]
    dsimp only
    by_cases hk : k = key
    · subst hk
      rw [if_pos rfl, assocFind_cons_self]
    · rw [assocFind_cons_ne hk] at h
      rw [if_neg hk, assocFind_cons_ne hk]
      exact ih h

theorem countKey_cons (k : String) (w : Option Value)
    (rest : List (String × Option Value)) (j : String) :
    countKey ((k, w) :: rest) j =
      countKey rest j + (if k = j then 1 else 0) := by
  by_cases hkj : k = j <;>
    simp [countKey, List.filter_cons, hkj, Nat.add_comm]

theorem countKey_map_setCacheMap (accs : List (String × Option Value))
    (key j : String) (c : Option Value) :
    countKey (accs.map (fun kv => if kv.1 = key then (kv.1, c) else kv)) j =
      countKey accs j := by
  induction accs with
  | nil => simp [countKey]
  | cons kv rest ih =>
    obtain ⟨k, w⟩ := kv
    rw [List.map_cons]
    dsimp only
    by_cases hk : k = key
    · subst hk
      rw [if_pos rfl, countKey_cons, countKey_cons, ih]
    · rw [if_neg hk, countKey_cons, countKey_cons, ih]

theorem countKey_append_self (accs : List (String × Option Value))
    (key : String) (c : Option Value) :
    countKey (accs ++ [(key, c)]) key = countKey accs key + 1 := by
  simp [countKey, List.filter_append, List.filter]

theorem countKey_of_lookup_none (accs : List (String × Option Value))
    (key : String) (h : assocFind key accs = none) : countKey accs key = 0 := by
  induction accs with
  | nil => simp [countKey]
  | cons kv rest ih =>
    obtain ⟨k, w⟩ := kv
    by_cases hk : k = key
    · subst hk; simp [assocFind] at h
    · simp [assocFind, hk] at h
      simp [countKey, List.filter, hk]
      simpa [countKey] using ih h

theorem assocFind_append_of_none {β : Type} (l₁ l₂ : List (String × β))
    (key : String) (h : assocFind key l₁ = none) :
    assocFind key (l₁ ++ l₂) = assocFind key l₂ := by
  induction l₁ with
  | nil => simp
  | cons kv rest ih =>
    obtain ⟨k, w⟩ := kv
    by_cases hk : k = key
    · subst hk; simp [assocFind] at h
    · simp [assocFind, hk] at h ⊢
      exact ih h

/-! ## Notification and invalidation lemmas -/

theorem notify_mem_self (p : ProxyState) (key : String) :
    key ∈ (notifyPropertyChange p key).notifications := by
  simp [notifyPropertyChange]

theorem notify_mem_mono {p : ProxyState} {key : String} (j : String)
    (h : key ∈ p.notifications) :
    key ∈ (notifyPropertyChange p j).notifications := by
  simp [notifyPropertyChange, h]

theorem invalidate_self (accs : List (String × Option Value)) (key : String) :
    ∀ c, assocFind key (invalidateCache accs key) = some c → c = none := by
  induction accs with
  | nil => intro c hc; simp [invalidateCache, assocFind] at hc
  | cons kv rest ih =>
    obtain ⟨k, w⟩ := kv
    intro c hc
    rw [invalidateCache, List.map_cons] at hc
    dsimp only at hc
    by_cases hk : k = key
    · subst hk
      rw [if_pos rfl, assocFind_cons_self] at hc
      exact (Option.some_inj.mp hc).symm
    · rw [if_neg hk, assocFind_cons_ne hk] at hc
      exact ih c hc

theorem invalidate_mono (accs : List (String × Option Value)) (key j : String)
    (h : ∀ c, assocFind key accs = some c → c = none) :
    ∀ c, assocFind key (invalidateCache accs j) = some c → c = none := by
  induction accs with
  | nil => intro c hc; simp [invalidateCache, assocFind] at hc
  | cons kv rest ih =>
    obtain ⟨k, w⟩ := kv
    intro c hc
    rw [invalidateCache, List.map_cons] at hc
    dsimp only at hc
    by_cases hkey : k = key
    · subst hkey
      by_cases hj : k = j
      · subst hj
        rw [if_pos rfl, assocFind_cons_self] at hc
        exact (Option.some_inj.mp hc).symm
      · rw [if_neg hj, assocFind_cons_self] at hc
        exact h c (by rw [assocFind_cons_self, hc])
    · have htail : ∀ c, assocFind key rest = some c → c = none := by
        intro c' hc'
        exact h c' (by rw [assocFind_cons_ne hkey]; exact hc')
      by_cases hj : k = j
      · subst hj
        rw [if_pos rfl, assocFind_cons_ne hkey] at hc
        exact ih htail c hc
      · rw [if_neg hj, assocFind_cons_ne hkey] at hc
        exact ih htail c hc

/-- The property "key has been notified on this instance and its cache is
invalid" for the fold in `contentDidChange`. -/
def notifiedAndInvalid (p : ProxyState) (key : String) : Prop :=
  key ∈ p.notifications ∧ ∀ c, assocFind key p.accessors = some c → c = none

theorem notifiedAndInvalid_step {p : ProxyState} {key : String} (j : String)
    (h : notifiedAndInvalid p key) :
    notifiedAndInvalid (notifyPropertyChange p j) key := by
  refine ⟨notify_mem_mono j h.1, ?_⟩
  exact invalidate_mono p.accessors key j h.2

theorem notifiedAndInvalid_self (p : ProxyState) (key : String) :
    notifiedAndInvalid (notifyPropertyChange p key) key := by
  refine ⟨notify_mem_self p key, ?_⟩
  exact invalidate_self p.accessors key

theorem contentDidChange_nil (p : ProxyState) :
    contentDidChange p [] = p := rfl

theorem contentDidChange_cons (p : ProxyState) (j : String)
    (rest : List String) :
    contentDidChange p (j :: rest) =
      contentDidChange (notifyPropertyChange p j) rest := by
  simp [contentDidChange]

theorem notifiedAndInvalid_foldl (l : List String) (p : ProxyState)
    (key : String) (h : notifiedAndInvalid p key) :
    notifiedAndInvalid (contentDidChange p l) key := by
  induction l generalizing p with
  | nil => exact h
  | cons j rest ih =>
    rw [contentDidChange_cons]
    exact ih (notifyPropertyChange p j) (notifiedAndInvalid_step j h)

theorem contentDidChange_of_mem (l : List String) (p : ProxyState)
    (key : String) (hmem : key ∈ l) :
    notifiedAndInvalid (contentDidChange p l) key := by
  induction l generalizing p with
  | nil => cases hmem
  | cons j rest ih =>
    rw [contentDidChange_cons]
    by_cases hj : key = j
    · subst hj
      exact notifiedAndInvalid_foldl rest (notifyPropertyChange p key) key
        (notifiedAndInvalid_self p key)
    · have : key ∈ rest := by
        cases hmem with
        | head => exact absurd rfl hj
        | tail _ htail => exact htail
      exact ih (notifyPropertyChange p j) this

theorem notify_attrs (p : ProxyState) (j : String) :
    (notifyPropertyChange p j).content = p.content ∧
    (notifyPropertyChange p j).allowsMultipleContent = p.allowsMultipleContent ∧
    (notifyPropertyChange p j).isEditable = p.isEditable := by
  simp [notifyPropertyChange]

theorem contentDidChange_attrs (l : List String) (p : ProxyState) :
    (contentDidChange p l).content = p.content ∧
    (contentDidChange p l).allowsMultipleContent = p.allowsMultipleContent ∧
    (contentDidChange p l).isEditable = p.isEditable := by
  induction l generalizing p with
  | nil => exact ⟨rfl, rfl, rfl⟩
  | cons j rest ih =>
    rw [contentDidChange_cons]
    have h1 := ih (notifyPropertyChange p j)
    simpa [notifyPropertyChange] using h1

theorem scSetAdd_mem (s : List String) (k : String) : k ∈ scSetAdd s k := by
  by_cases hk : k ∈ s <;> simp [scSetAdd, hk]

theorem truthy_null : truthy Value.null = false := rfl

/-! ## uniq lemmas -/

theorem uniq_cons_head (x : Value) (xs : List Value) :
    uniq (x :: xs) = x :: uniqFrom [x] xs := by
  simp [uniq, uniqFrom]

theorem uniq_singleton_of_length_one (x : Value) (xs : List Value)
    (hlen : (uniq (x :: xs)).length = 1) : uniq (x :: xs) = [x] := by
  rw [uniq_cons_head] at hlen ⊢
  have : (uniqFrom [x] xs).length = 0 := by
    simpa using hlen
  rw [List.length_eq_zero] at this
  rw [this]

/-! ## Shared concrete fixtures for witnesses and counterexamples -/

/-- A small heap: object 1 (a scalar with a `name`), collections 0 = [obj 1],
2 = [obj 1, obj 1], 3 = [], 4 = [coll 3] (a nested collection). -/
def wHeap : Heap :=
  { objs := [(1, { props := [("name", Value.str "Ann")] })],
    colls := [(0, { elems := [Value.objRef 1] }),
              (2, { elems := [Value.objRef 1, Value.objRef 1] }),
              (3, { elems := [] }),
              (4, { elems := [Value.collRef 3] })] }

/-! ## C1: observableContent resolution -/

/-- C1: for every content and flag, `observableContent` returns
non-collection content unchanged; a collection of length 0 resolves to
null; a collection of length > 1 resolves to null when
`allowsMultipleContent` is false and to the collection itself when true;
and an unwrapped result that is itself a collection while
`allowsMultipleContent` is false is forced to null. -/
theorem observableContent_resolution (h : Heap) (p : ProxyState) :
    (scIsEnumerable p.content = false → observableContent h p = p.content) ∧
    (scIsEnumerable p.content = true → collLength h p.content = 0 →
      observableContent h p = Value.null) ∧
    (scIsEnumerable p.content = true → 1 < collLength h p.content →
      p.allowsMultipleContent = false → observableContent h p = Value.null) ∧
    (scIsEnumerable p.content = true → 1 < collLength h p.content →
      p.allowsMultipleContent = true → observableContent h p = p.content) ∧
    (scIsEnumerable p.content = true → collLength h p.content = 1 →
      p.allowsMultipleContent = false →
      scIsEnumerable (firstObject h p.content) = true →
      observableContent h p = Value.null) := by
  refine ⟨?_, ?_, ?_, ?_, ?_⟩
  · intro he
    simp [observableContent, he]
  · intro he h0
    simp [observableContent, he, truthy_of_enum he, h0, truthy_null]
  · intro he hlen hamc
    have h1 : collLength h p.content ≠ 1 := by omega
    simp [observableContent, he, truthy_of_enum he, h1, hamc, truthy_null]
  · intro he hlen hamc
    have h1 : collLength h p.content ≠ 1 := by omega
    have h0 : collLength h p.content ≠ 0 := by omega
    simp [observableContent, he, truthy_of_enum he, h1, h0, hamc]
  · intro he hlen hamc hfe
    simp [observableContent, he, truthy_of_enum he, hlen, hamc, hfe,
      truthy_of_enum hfe]

/-- Witness for C1 at concrete inputs: a plain string passes through, the
empty collection 3 gives null, the two-element collection 2 gives null
without `allowsMultipleContent` and itself with it, and the nested
collection 4 is forced to null. -/
theorem observableContent_resolution_witness :
    observableContent wHeap { content := Value.str "plain" } =
      Value.str "plain" ∧
    observableContent wHeap { content := Value.collRef 3 } = Value.null ∧
    observableContent wHeap { content := Value.collRef 2 } = Value.null ∧
    observableContent wHeap
      { content := Value.collRef 2, allowsMultipleContent := true } =
      Value.collRef 2 ∧
    observableContent wHeap { content := Value.collRef 4 } = Value.null := by
  refine ⟨?_, ?_, ?_, ?_, ?_⟩
  · exact (observableContent_resolution wHeap _).1 (by decide)
  · exact (observableContent_resolution wHeap _).2.1 (by decide) (by decide)
  · exact (observableContent_resolution wHeap _).2.2.1 (by decide) (by decide)
      (by decide)
  · exact (observableContent_resolution wHeap _).2.2.2.1 (by decide)
      (by decide) (by decide)
  · exact (observableContent_resolution wHeap _).2.2.2.2 (by decide)
      (by decide) (by decide) (by decide)

/-! ## C5: length-1 collections -/

/-- C5 counterexample: collection 4 has length exactly 1, but with
`allowsMultipleContent = false` its `observableContent` is null, not the
sole element (which is the collection 3): the nested-collection guard
overrides the length-1 unwrap. -/
theorem length_one_unwrap_counterexample :
    collLength wHeap (Value.collRef 4) = 1 ∧
    firstObject wHeap (Value.collRef 4) = Value.collRef 3 ∧
    ({ content := Value.collRef 4 } : ProxyState).allowsMultipleContent =
      false ∧
    observableContent wHeap { content := Value.collRef 4 } = Value.null ∧
    (Value.null : Value) ≠ Value.collRef 3 := by decide

/-- C5 amended: a collection of length exactly 1 unwraps to its sole
element when `allowsMultipleContent` is true or when the sole element is
not itself a collection; when `allowsMultipleContent` is false and the
sole element is itself a collection, `observableContent` is null. -/
theorem length_one_unwrap (h : Heap) (p : ProxyState)
    (henum : scIsEnumerable p.content = true)
    (hlen : collLength h p.content = 1) :
    (p.allowsMultipleContent = true →
      observableContent h p = firstObject h p.content) ∧
    (scIsEnumerable (firstObject h p.content) = false →
      observableContent h p = firstObject h p.content) ∧
    (p.allowsMultipleContent = false →
      scIsEnumerable (firstObject h p.content) = true →
      observableContent h p = Value.null) := by
  refine ⟨?_, ?_, ?_⟩
  · intro hamc
    simp [observableContent, henum, truthy_of_enum henum, hlen, hamc]
  · intro hfe
    simp [observableContent, henum, truthy_of_enum henum, hlen, hfe]
  · intro hamc hfe
    simp [observableContent, henum, truthy_of_enum henum, hlen, hamc, hfe,
      truthy_of_enum hfe]

/-- Witness for the amended C5: collection 0 = [object 1] unwraps to
object 1 (non-collection element, default flag); collection 4 = [coll 3]
unwraps to collection 3 when multiple content is allowed, and resolves to
null when it is not. -/
theorem length_one_unwrap_witness :
    observableContent wHeap { content := Value.collRef 0 } = Value.objRef 1 ∧
    observableContent wHeap
      { content := Value.collRef 4, allowsMultipleContent := true } =
      Value.collRef 3 ∧
    observableContent wHeap { content := Value.collRef 4 } = Value.null := by
  refine ⟨?_, ?_, ?_⟩
  · have := (length_one_unwrap wHeap { content := Value.collRef 0 }
      (by decide) (by decide)).2.1 (by decide)
    simpa using this
  · have := (length_one_unwrap wHeap
      { content := Value.collRef 4, allowsMultipleContent := true }
      (by decide) (by decide)).1 (by decide)
    simpa using this
  · exact (length_one_unwrap wHeap { content := Value.collRef 4 }
      (by decide) (by decide)).2.2 (by decide) (by decide)

/-! ## C2: multi-target read -/

/-- C2: when `observableContent` is a collection, a forwarded read gathers
the key from every element in order (`getEach`); an empty gathered
sequence yields `undefined`; exactly one distinct value collapses to that
single value (the first object of the gathered sequence); otherwise the
full ordered per-element sequence is returned (as a freshly allocated
collection whose elements are exactly the gathered values). -/
theorem forwarded_read_multi_target (p : ProxyState) (h : Heap) (key : String)
    (henum : scIsEnumerable (observableContent h p) = true) :
    getEach h (observableContent h p) key =
      (collElems h (observableContent h p)).map (fun e => getProp h e key) ∧
    ((getEach h (observableContent h p) key).length = 0 →
      forwardedCompute p h key Value.undef = Except.ok (Value.undef, h)) ∧
    ((uniq (getEach h (observableContent h p) key)).length = 1 →
      forwardedCompute p h key Value.undef =
        Except.ok
          ((getEach h (observableContent h p) key).headD Value.undef, h) ∧
      uniq (getEach h (observableContent h p) key) =
        [(getEach h (observableContent h p) key).headD Value.undef]) ∧
    ((getEach h (observableContent h p) key).length ≠ 0 →
      (uniq (getEach h (observableContent h p) key)).length ≠ 1 →
      forwardedCompute p h key Value.undef =
        Except.ok ((allocColl h (getEach h (observableContent h p) key)).2,
          (allocColl h (getEach h (observableContent h p) key)).1) ∧
      collElems (allocColl h (getEach h (observableContent h p) key)).1
          (allocColl h (getEach h (observableContent h p) key)).2 =
        getEach h (observableContent h p) key) := by
  have hnn := notNullUndef_of_enum henum
  refine ⟨rfl, ?_, ?_, ?_⟩
  · intro h0
    simp [forwardedCompute, hnn, henum, h0]
  · intro h1
    cases hv : getEach h (observableContent h p) key with
    | nil => rw [hv] at h1; simp [uniq, uniqFrom] at h1
    | cons x xs =>
      rw [hv] at h1
      have hu := uniq_singleton_of_length_one x xs h1
      constructor
      · simp [forwardedCompute, hnn, henum, hv, h1]
      · rw [hu]
        simp
  · intro h0 h1
    constructor
    · simp [forwardedCompute, hnn, henum, h0, h1]
    · simp [allocColl, collElems, Heap.collRec, assocFind]

/-- Three elements, statuses ok / ok / fail. -/
def sHeap : Heap :=
  { objs := [(1, { props := [("status", Value.str "ok")] }),
             (2, { props := [("status", Value.str "ok")] }),
             (3, { props := [("status", Value.str "fail")] })],
    colls := [(0, { elems := [Value.objRef 1, Value.objRef 2, Value.objRef 3] })] }

/-- Three elements, statuses all ok. -/
def sHeapOk : Heap :=
  { objs := [(1, { props := [("status", Value.str "ok")] }),
             (2, { props := [("status", Value.str "ok")] }),
             (3, { props := [("status", Value.str "ok")] })],
    colls := [(0, { elems := [Value.objRef 1, Value.objRef 2, Value.objRef 3] })] }

/-- A proxy in multi-target mode on collection 0. -/
def pMulti : ProxyState :=
  { content := Value.collRef 0, allowsMultipleContent := true }

/-- Witness for C2: with all three statuses "ok" the read collapses to the
single value "ok"; after one element's status changes to "fail" the read
returns the ordered per-element sequence ok, ok, fail. -/
theorem forwarded_read_multi_target_witness :
    forwardedCompute pMulti sHeapOk "status" Value.undef =
      Except.ok (Value.str "ok", sHeapOk) ∧
    forwardedCompute pMulti sHeap "status" Value.undef =
      Except.ok
        ((allocColl sHeap
            [Value.str "ok", Value.str "ok", Value.str "fail"]).2,
          (allocColl sHeap
            [Value.str "ok", Value.str "ok", Value.str "fail"]).1) ∧
    collElems
        (allocColl sHeap
          [Value.str "ok", Value.str "ok", Value.str "fail"]).1
        (allocColl sHeap
          [Value.str "ok", Value.str "ok", Value.str "fail"]).2 =
      [Value.str "ok", Value.str "ok", Value.str "fail"] := by
  refine ⟨?_, ?_, ?_⟩
  · have h2 := (forwarded_read_multi_target pMulti sHeapOk "status"
      (by decide)).2.2.1 (by decide)
    have h3 : (getEach sHeapOk (observableContent sHeapOk pMulti)
        "status").headD Value.undef = Value.str "ok" := by decide
    rw [h3] at h2
    exact h2.1
  · have h2 := (forwarded_read_multi_target pMulti sHeap "status"
      (by decide)).2.2.2 (by decide) (by decide)
    have h3 : getEach sHeap (observableContent sHeap pMulti) "status" =
        [Value.str "ok", Value.str "ok", Value.str "fail"] := by decide
    rw [h3] at h2
    exact h2.1
  · have h2 := (forwarded_read_multi_target pMulti sHeap "status"
      (by decide)).2.2.2 (by decide) (by decide)
    have h3 : getEach sHeap (observableContent sHeap pMulti) "status" =
        [Value.str "ok", Value.str "ok", Value.str "fail"] := by decide
    rw [h3] at h2
    exact h2.2

/-! ## C10: falsy non-null content is a real target -/

/-- C10: only `null`/`undefined` observable content is treated as absent:
for any other falsy content value (`false`, `0`, `""`), a forwarded read
forwards to `get(target, key)` rather than taking the absent path, a
forwarded write (with `isEditable`) is applied to the target via
`set(target, key, v)` and returns `v`, and `observableContent` returns
such falsy non-collection content unchanged. -/
theorem falsy_content_forwarded (p : ProxyState) (h : Heap) (key : String)
    (v : Value)
    (hfalsy : truthy p.content = false)
    (hnn : p.content ≠ Value.null)
    (hnu : p.content ≠ Value.undef) :
    observableContent h p = p.content ∧
    forwardedCompute p h key Value.undef =
      Except.ok (getProp h p.content key, h) ∧
    (p.isEditable = true → v ≠ Value.undef →
      forwardedCompute p h key v =
        Except.ok (v, setProp h p.content key v)) := by
  have hne := not_enum_of_falsy hfalsy
  have hobs : observableContent h p = p.content := by
    simp [observableContent, hfalsy]
  have hnnu : isNullOrUndef p.content = false := notNullUndef_iff.mpr ⟨hnn, hnu⟩
  refine ⟨hobs, ?_, ?_⟩
  · simp [forwardedCompute, hobs, hnnu, hne]
  · intro hed hv
    simp [forwardedCompute, hobs, hnnu, hne, hed, hv]

/-- Witness for C10 at `content = false`: `observableContent` passes the
value through, a read of "name" goes through `get` (undefined on a
primitive), and a write of "X" returns "X" with the heap untouched by
the primitive-target `set`. -/
theorem falsy_content_forwarded_witness :
    observableContent wHeap { content := Value.bool false } =
      Value.bool false ∧
    forwardedCompute { content := Value.bool false } wHeap "name"
      Value.undef = Except.ok (Value.undef, wHeap) ∧
    forwardedCompute { content := Value.bool false } wHeap "name"
      (Value.str "X") = Except.ok (Value.str "X", wHeap) := by
  have h1 := falsy_content_forwarded { content := Value.bool false } wHeap
    "name" (Value.str "X") (by decide) (by decide) (by decide)
  refine ⟨h1.1, ?_, ?_⟩
  · have h2 := h1.2.1
    have h3 : getProp wHeap (Value.bool false) "name" = Value.undef := by
      decide
    rw [h3] at h2
    exact h2
  · have h2 := h1.2.2 (by decide) (by decide)
    have h3 : setProp wHeap (Value.bool false) "name" (Value.str "X") =
        wHeap := by decide
    rw [h3] at h2
    exact h2

/-! ## C4: writes against null observable content -/

/-- C4: a write of `v` to a forwarded key while `observableContent` is
null raises no error and mutates no target object (the heap is returned
unchanged), yet the accessor records `v`: the set returns `v` and a
subsequent read of the key returns `v` from the cache.  The recording and
return of `v` are the framework's cacheable-setter behavior, modelled from
the spec (section 4.2); the early return that skips all target access is
src/lib/core.js line 175. -/
theorem null_target_write_tolerated (p : ProxyState) (h : Heap) (key : String)
    (v : Value)
    (hinst : (assocFind key p.accessors).isSome = true)
    (hnull : observableContent h p = Value.null) :
    computedSet p h key v = Except.ok (v, setCache p key (some v), h) ∧
    (computedGet (setCache p key (some v)) h key).1 = v := by
  have h1 : forwardedCompute p h key v = Except.ok (Value.undef, h) := by
    simp [forwardedCompute, hnull, isNullOrUndef]
  constructor
  · simp [computedSet, h1]
  · have h2 : assocFind key (setCache p key (some v)).accessors =
        some (some v) := by
      simpa [setCache] using lookup_setCacheMap_self p.accessors key (some v)
        hinst
    simp [computedGet, h2]

/-- A proxy with null content and an installed accessor for "name". -/
def pNullTarget : ProxyState := { accessors := [("name", none)] }

/-- Witness for C4: with null content, writing "X" to "name" succeeds
without error, leaves the heap unchanged, and a following read of "name"
yields "X". -/
theorem null_target_write_witness :
    computedSet pNullTarget wHeap "name" (Value.str "X") =
      Except.ok (Value.str "X",
        setCache pNullTarget "name" (some (Value.str "X")), wHeap) ∧
    (computedGet (setCache pNullTarget "name" (some (Value.str "X")))
        wHeap "name").1 = Value.str "X" :=
  null_target_write_tolerated pNullTarget wHeap "name" (Value.str "X")
    (by decide) (by decide)

/-! ## C3: editability errors -/

/-- A proxy with null content, an installed "name" accessor, and
`isEditable = false`. -/
def pNullNotEditable : ProxyState :=
  { content := Value.null, isEditable := false,
    accessors := [("name", none)] }

/-- A proxy on scalar object 1, with an installed "name" accessor and
`isEditable = false`. -/
def pScalarNotEditable : ProxyState :=
  { content := Value.objRef 1, isEditable := false,
    accessors := [("name", none)] }

/-- C3 counterexample: two writes to a forwarded key while `isEditable`
is false that raise no error.  With null observable content the
null-target early return (line 175) precedes the editability check, so
the write succeeds; and a write of `undefined` is indistinguishable from
a read (`value === undefined`), so it takes the read path even on a
non-null target. -/
theorem editability_error_counterexample :
    pNullNotEditable.isEditable = false ∧
    computedSet pNullNotEditable wHeap "name" (Value.str "X") =
      Except.ok (Value.str "X",
        setCache pNullNotEditable "name" (some (Value.str "X")), wHeap) ∧
    pScalarNotEditable.isEditable = false ∧
    computedSet pScalarNotEditable wHeap "name" Value.undef =
      Except.ok (Value.undef,
        setCache pScalarNotEditable "name" (some Value.undef), wHeap) :=
  ⟨rfl, rfl, rfl, rfl⟩

/-- C3 amended: a write of a defined value to a forwarded key while
`isEditable` is false and `observableContent` is neither null nor
undefined raises the editability error synchronously; the error names the
proxy and the key, and no updated state is produced, so the underlying
content is unchanged. -/
theorem editability_error_on_write (p : ProxyState) (h : Heap) (key : String)
    (v : Value)
    (_hinst : (assocFind key p.accessors).isSome = true)
    (hv : v ≠ Value.undef)
    (hne : isNullOrUndef (observableContent h p) = false)
    (hed : p.isEditable = false) :
    computedSet p h key v = Except.error { proxy := p, key := key } := by
  simp [computedSet, forwardedCompute, hne, hv, hed]

/-- Witness for the amended C3: on a non-editable proxy with scalar
content, writing "X" to "name" raises the editability error identifying
the proxy and the key. -/
theorem editability_error_on_write_witness :
    computedSet pScalarNotEditable wHeap "name" (Value.str "X") =
      Except.error { proxy := pScalarNotEditable, key := "name" } :=
  editability_error_on_write pScalarNotEditable wHeap "name" (Value.str "X")
    (by decide) (by decide) (by decide) (by decide)

/-! ## C6: content changes re-announce every forwarded key -/

/-- C6: whenever the `content` attribute is set, every key in the
forwarded-key registry receives a change notification and has its cached
accessor value invalidated, regardless of whether the new content (and
hence the forwarded value) actually differs — the new value `v` is
arbitrary and may equal the old content. -/
theorem content_change_notifies (p : ProxyState) (registry : List String)
    (v : Value) (key : String) (hmem : key ∈ registry) :
    key ∈ (setContent p registry v).notifications ∧
    (∀ c, assocFind key (setContent p registry v).accessors = some c →
      c = none) ∧
    (setContent p registry v).content = v := by
  have h1 := contentDidChange_of_mem registry { p with content := v } key hmem
  refine ⟨h1.1, h1.2, ?_⟩
  show (contentDidChange { p with content := v } registry).content = v
  exact (contentDidChange_attrs registry { p with content := v }).1

/-- A proxy on object 1 with a populated cache for "name". -/
def pCached : ProxyState :=
  { content := Value.objRef 1,
    accessors := [("name", some (Value.str "Ann"))] }

/-- Witness for C6: re-setting `content` to the very same object still
notifies "name" and invalidates its cached value. -/
theorem content_change_notifies_witness :
    "name" ∈ (setContent pCached ["name"] (Value.objRef 1)).notifications ∧
    assocFind "name"
      (setContent pCached ["name"] (Value.objRef 1)).accessors = some none ∧
    (setContent pCached ["name"] (Value.objRef 1)).content =
      Value.objRef 1 := by
  have h1 := content_change_notifies pCached ["name"] (Value.objRef 1) "name"
    (by decide)
  exact ⟨h1.1, by decide, h1.2.2⟩

/-! ## C7: destroy -/

/-- C7: when `observableContent` is a (non-null) object exposing a
callable `destroy`, `destroy()` invokes it exactly once (the invocation
log grows by exactly that object), then sets `content` to null, after
which `hasContent` is false; a second `destroy()` in succession returns
normally and does not invoke the content's destroy again (the log is
unchanged).  The source returns the receiver, modelled as the returned
updated proxy state. -/
theorem destroy_invokes_once (p : ProxyState) (h : Heap)
    (registry : List String) (log : List Nat) (i : Nat)
    (hobs : observableContent h p = Value.objRef i)
    (hdes : hasDestroyFn h (Value.objRef i) = true) :
    (destroy p h registry log).2 = log ++ [i] ∧
    (destroy p h registry log).1.content = Value.null ∧
    hasContent h (destroy p h registry log).1 = false ∧
    (destroy (destroy p h registry log).1 h registry
      (destroy p h registry log).2).2 = log ++ [i] := by
  have h1 : (destroy p h registry log).2 = log ++ [i] := by
    simp [destroy, hobs, hdes, truthy, destroyTargetId]
  have hc : (destroy p h registry log).1.content = Value.null := by
    show (contentDidChange { p with content := Value.null } registry).content =
      Value.null
    exact (contentDidChange_attrs registry { p with content := Value.null }).1
  have hobs2 : observableContent h (destroy p h registry log).1 = Value.null :=
    observableContent_of_null_content hc
  have hhc : hasContent h (destroy p h registry log).1 = false := by
    simp [hasContent, hobs2, isNullOrUndef]
  have hobs3 : observableContent h (setContent p registry Value.null) =
      Value.null := hobs2
  have h2 : (destroy (destroy p h registry log).1 h registry
      (destroy p h registry log).2).2 = (destroy p h registry log).2 := by
    simp [destroy, hobs3, truthy_null]
  exact ⟨h1, hc, hhc, h2.trans h1⟩

/-- Heap with a destroyable object 5. -/
def dHeap : Heap := { objs := [(5, { hasDestroy := true })] }

/-- Witness for C7: destroying a proxy on object 5 logs exactly one
invocation of its destroy, nulls the content, makes `hasContent` false,
and a repeated destroy leaves the log at that single invocation. -/
theorem destroy_invokes_once_witness :
    (destroy { content := Value.objRef 5 } dHeap [] []).2 = [5] ∧
    (destroy { content := Value.objRef 5 } dHeap [] []).1.content =
      Value.null ∧
    hasContent dHeap (destroy { content := Value.objRef 5 } dHeap [] []).1 =
      false ∧
    (destroy (destroy { content := Value.objRef 5 } dHeap [] []).1 dHeap []
      (destroy { content := Value.objRef 5 } dHeap [] []).2).2 = [5] := by
  have h1 := destroy_invokes_once { content := Value.objRef 5 } dHeap [] [] 5
    (by decide) (by decide)
  simpa using h1

/-! ## C9: frame property of scalar writes -/

/-- C9: a write of a defined value `v` to a forwarded key while
`observableContent` is a non-null scalar object mutates only property
`key` of that object: that property becomes `v`, every other property of
the object is unchanged, every other heap object and all collections are
unchanged, and the proxy's own `content`, `allowsMultipleContent` and
`isEditable` attributes are unchanged (only the accessor cache for `key`
is updated). -/
theorem scalar_write_frame (p : ProxyState) (h : Heap) (key : String)
    (v : Value) (i : Nat) (r : ObjRecord)
    (_hinst : (assocFind key p.accessors).isSome = true)
    (hobs : observableContent h p = Value.objRef i)
    (hrec : h.objRec i = some r)
    (hed : p.isEditable = true)
    (hv : v ≠ Value.undef) :
    computedSet p h key v =
      Except.ok (v, setCache p key (some v),
        setProp h (Value.objRef i) key v) ∧
    getProp (setProp h (Value.objRef i) key v) (Value.objRef i) key = v ∧
    (∀ j, j ≠ key →
      getProp (setProp h (Value.objRef i) key v) (Value.objRef i) j =
        getProp h (Value.objRef i) j) ∧
    (∀ oid, oid ≠ i →
      (setProp h (Value.objRef i) key v).objRec oid = h.objRec oid) ∧
    (setProp h (Value.objRef i) key v).colls = h.colls ∧
    (setCache p key (some v)).content = p.content ∧
    (setCache p key (some v)).allowsMultipleContent =
      p.allowsMultipleContent ∧
    (setCache p key (some v)).isEditable = p.isEditable := by
  have hupd : (setProp h (Value.objRef i) key v).objRec i =
      some { r with props := setPropList r.props key v } := by
    show assocFind i (updateObjProps h.objs i key v) = _
    exact lookup_updateObjProps_self h.objs i key v r hrec
  refine ⟨?_, ?_, ?_, ?_, rfl, rfl, rfl, rfl⟩
  · simp [computedSet, forwardedCompute, hobs, hv, hed, isNullOrUndef,
      scIsEnumerable]
  · simp [getProp, hupd, lookup_setPropList_self]
  · intro j hj
    simp [getProp, hupd, hrec, lookup_setPropList_ne r.props key j v hj]
  · intro oid hoid
    show assocFind oid (updateObjProps h.objs i key v) = assocFind oid h.objs
    exact lookup_updateObjProps_ne h.objs i oid key v hoid

/-- A proxy on scalar object 1 with an installed "name" accessor. -/
def pScalar : ProxyState :=
  { content := Value.objRef 1, accessors := [("name", none)] }

/-- Witness for C9: writing "Bea" to "name" on object 1 updates that one
property, leaves its other properties and object 2 and all collections
alone, and leaves the proxy attributes alone. -/
theorem scalar_write_frame_witness :
    computedSet pScalar wHeap "name" (Value.str "Bea") =
      Except.ok (Value.str "Bea",
        setCache pScalar "name" (some (Value.str "Bea")),
        setProp wHeap (Value.objRef 1) "name" (Value.str "Bea")) ∧
    getProp (setProp wHeap (Value.objRef 1) "name" (Value.str "Bea"))
      (Value.objRef 1) "name" = Value.str "Bea" ∧
    getProp (setProp wHeap (Value.objRef 1) "name" (Value.str "Bea"))
        (Value.objRef 1) "status" =
      getProp wHeap (Value.objRef 1) "status" ∧
    (setProp wHeap (Value.objRef 1) "name" (Value.str "Bea")).objRec 2 =
      wHeap.objRec 2 ∧
    (setProp wHeap (Value.objRef 1) "name" (Value.str "Bea")).colls =
      wHeap.colls ∧
    (setCache pScalar "name" (some (Value.str "Bea"))).content =
      pScalar.content := by
  have h1 := scalar_write_frame pScalar wHeap "name" (Value.str "Bea") 1
    { props := [("name", Value.str "Ann")] } (by decide) (by decide)
    (by decide) (by decide) (by decide)
  exact ⟨h1.1, h1.2.1, h1.2.2.1 "status" (by decide),
    h1.2.2.2.1 2 (by decide), h1.2.2.2.2.1, h1.2.2.2.2.2.1⟩

/-! ## C8: the forwarded-key registry -/

theorem computedGet_accessors_shape (p : ProxyState) (h : Heap)
    (key : String) :
    (computedGet p h key).2.1 = p ∨
    ∃ r, (computedGet p h key).2.1 = setCache p key (some r) := by
  rw [computedGet]
  split
  · exact Or.inl rfl
  · split
    · exact Or.inr ⟨_, rfl⟩
    · exact Or.inl rfl

theorem countKey_computedGet (p : ProxyState) (h : Heap) (key j : String) :
    countKey (computedGet p h key).2.1.accessors j = countKey p.accessors j := by
  rcases computedGet_accessors_shape p h key with heq | ⟨r, heq⟩
  · rw [heq]
  · rw [heq]
    simp [setCache, countKey_map_setCacheMap]

theorem computedGet_accessors_len (p : ProxyState) (h : Heap) (key : String) :
    (computedGet p h key).2.1.accessors.length = p.accessors.length := by
  rcases computedGet_accessors_shape p h key with heq | ⟨r, heq⟩
  · rw [heq]
  · rw [heq]
    simp [setCache]

/-- C8 counterexample: the `_proxiedProperties` registry is the single
class-level `new SC.Set()` (src/lib/core.js line 212), evaluated once at
class definition and shared by reference across all instances, not
allocated fresh per instance.  Starting from the class's initially empty
registry, instance 1 forwards "name"; a content change on a second, fresh
instance — whose own accessor list is empty and which never accessed
"name" — then walks the same registry and emits a change notification
for "name", which could not happen if each instance had its own freshly
allocated registry. -/
theorem registry_shared_counterexample :
    ({ } : ProxyState).accessors = [] ∧
    "name" ∈
      (unknownProperty { content := Value.null } { } [] "name"
        Value.undef).2.2.2 ∧
    "name" ∈
      (setContent { }
        (unknownProperty { content := Value.null } { } [] "name"
          Value.undef).2.2.2
        (Value.num 1)).notifications := by
  refine ⟨rfl, by decide, by decide⟩

/-- C8 amended: every key in the registry has exactly one accessor
installed per instance and installation happens at most once per key per
instance — a first access to an unknown key installs exactly one accessor
and registers the key, and re-access of a key with an installed accessor
uses it directly without reinstalling or touching the registry — but the
registry itself is the single class-level set shared by reference across
all instances, not allocated fresh per instance: a key forwarded through
one instance is seen by the content-change propagation of every other
instance. -/
theorem registry_installation (p p2 : ProxyState) (h : Heap)
    (registry : List String) (key : String) (va v : Value) :
    (assocFind key p.accessors = none →
      countKey (unknownProperty p h registry key va).2.1.accessors key = 1 ∧
      key ∈ (unknownProperty p h registry key va).2.2.2) ∧
    ((assocFind key p.accessors).isSome = true →
      countKey (getKey p h registry key).2.1.accessors key =
        countKey p.accessors key ∧
      (getKey p h registry key).2.1.accessors.length =
        p.accessors.length ∧
      (getKey p h registry key).2.2.2 = registry) ∧
    key ∈
      (setContent p2 (unknownProperty p h registry key va).2.2.2
        v).notifications := by
  refine ⟨?_, ?_, ?_⟩
  · intro hnone
    constructor
    · show countKey
        (computedGet { p with accessors := p.accessors ++ [(key, none)] } h
          key).2.1.accessors key = 1
      rw [countKey_computedGet]
      show countKey (p.accessors ++ [(key, none)]) key = 1
      rw [countKey_append_self, countKey_of_lookup_none p.accessors key hnone]
    · exact scSetAdd_mem registry key
  · intro hsome
    obtain ⟨c, hc⟩ := Option.isSome_iff_exists.mp hsome
    refine ⟨?_, ?_, ?_⟩
    · show countKey (getKey p h registry key).2.1.accessors key =
        countKey p.accessors key
      simp only [getKey, hc]
      exact countKey_computedGet p h key key
    · simp only [getKey, hc]
      exact computedGet_accessors_len p h key
    · simp only [getKey, hc]
  · show key ∈
      (contentDidChange { p2 with content := v }
        (scSetAdd registry key)).notifications
    exact (contentDidChange_of_mem (scSetAdd registry key)
      { p2 with content := v } key (scSetAdd_mem registry key)).1

/-- Witness for the amended C8: instance 1 (null content) forwards "name"
for the first time — exactly one accessor appears and the key is
registered; instance `pNullTarget`, which has "name" installed, re-reads
it without adding accessors or touching the registry; and a content
change on a second fresh instance sees the registered key. -/
theorem registry_installation_witness :
    countKey
      (unknownProperty { content := Value.null } { } [] "name"
        Value.undef).2.1.accessors "name" = 1 ∧
    "name" ∈
      (unknownProperty { content := Value.null } { } [] "name"
        Value.undef).2.2.2 ∧
    countKey (getKey pNullTarget { } ["name"] "name").2.1.accessors "name" =
      countKey pNullTarget.accessors "name" ∧
    (getKey pNullTarget { } ["name"] "name").2.1.accessors.length =
      pNullTarget.accessors.length ∧
    (getKey pNullTarget { } ["name"] "name").2.2.2 = ["name"] ∧
    "name" ∈
      (setContent { }
        (unknownProperty { content := Value.null } { } [] "name"
          Value.undef).2.2.2
        (Value.num 1)).notifications := by
  have h1 := (registry_installation { content := Value.null } { } { } []
    "name" Value.undef (Value.num 1)).1 (by decide)
  have h2 := (registry_installation pNullTarget { } { } ["name"] "name"
    Value.undef (Value.num 1)).2.1 (by decide)
  have h3 := (registry_installation { content := Value.null } { } { } []
    "name" Value.undef (Value.num 1)).2.2
  exact ⟨h1.1, h1.2, h2.1, h2.2.1, h2.2.2, h3⟩
